import Mathlib

/-!
Verification of the layer compositing engine of the ImageEditor repository
(`src/models/layer.py`: `Layer` and `LayerManager`).

The embedding is a direct translation of the Python source:
* a PIL RGBA image becomes a `Raster`: a width, a height and a row-major
  list of rows of `Pixel`s (each channel a `Nat`, valid rasters keep the
  channels below 256);
* numpy `float32` pixel arithmetic becomes exact rational (`ℚ`)
  arithmetic; `astype(np.uint8)` on the non-negative values produced here
  is truncation towards zero, embedded as `Int.floor` followed by
  `Int.toNat`;
* PIL's `Image.resize` (an external library call, used by
  `_blend_images` only when the two sizes differ) is an explicit function
  parameter `resize`, so every theorem quantifies over the resampling
  filter, constrained only by the contracts the proof actually needs;
* Python lists become `List`, Python `int` indices become `Int`
  (`active_layer_index` is `-1` on an empty stack, as in the source).
-/

/-- One RGBA pixel, 8 bits per channel in the real program. -/
structure Pixel where
  r : Nat
  g : Nat
  b : Nat
  a : Nat
deriving DecidableEq, Repr

/-- The fully transparent pixel `(0, 0, 0, 0)`. -/
def Pixel.transparent : Pixel := ⟨0, 0, 0, 0⟩

/-- All four channels fit in 8 bits. -/
def Pixel.Valid (p : Pixel) : Prop :=
  p.r ≤ 255 ∧ p.g ≤ 255 ∧ p.b ≤ 255 ∧ p.a ≤ 255

instance (p : Pixel) : Decidable p.Valid := by
  unfold Pixel.Valid; infer_instance

/-- An RGBA raster buffer: width, height and the pixel rows. -/
structure Raster where
  width : Nat
  height : Nat
  data : List (List Pixel)
deriving DecidableEq, Repr

/-- The rows of `data` really have the announced shape. -/
def Raster.WellFormed (r : Raster) : Prop :=
  r.data.length = r.height ∧ ∀ row ∈ r.data, row.length = r.width

/-- Every pixel of the raster fits in 8 bits per channel. -/
def Raster.Valid8 (r : Raster) : Prop :=
  ∀ row ∈ r.data, ∀ p ∈ row, p.Valid

/-- Every pixel of the raster has alpha 0. -/
def Raster.Transparent (r : Raster) : Prop :=
  ∀ row ∈ r.data, ∀ p ∈ row, p.a = 0

/-- Every pixel of the raster has alpha 255. -/
def Raster.Opaque255 (r : Raster) : Prop :=
  ∀ row ∈ r.data, ∀ p ∈ row, p.a = 255

instance (r : Raster) : Decidable r.WellFormed := by
  unfold Raster.WellFormed; infer_instance

instance (r : Raster) : Decidable r.Valid8 := by
  unfold Raster.Valid8; infer_instance

instance (r : Raster) : Decidable r.Transparent := by
  unfold Raster.Transparent; infer_instance

instance (r : Raster) : Decidable r.Opaque255 := by
  unfold Raster.Opaque255; infer_instance

/-- Read the pixel at column `x`, row `y` (transparent outside bounds;
in-bounds reads of a well-formed raster never hit the default). -/
def Raster.getPix (r : Raster) (x y : Nat) : Pixel :=
  (r.data.getD y []).getD x Pixel.transparent

/-- Build a `w × h` raster from a pixel-valued function. -/
def mkRaster (w h : Nat) (f : Nat → Nat → Pixel) : Raster :=
  ⟨w, h, (List.range h).map fun y => (List.range w).map fun x => f x y⟩

/-- The type of the external resampling filter (`PIL.Image.resize`):
given a raster and target width/height it returns the resampled raster. -/
def ResizeFun : Type := Raster → Nat → Nat → Raster

/-- `np.clip (· , 0, 255)`. -/
def clamp255 (q : ℚ) : ℚ := max 0 (min 255 q)

/-- `astype(np.uint8)` on the non-negative floats produced by the blend
pipeline: truncation towards zero. -/
def toU8 (q : ℚ) : Nat := (Int.floor q).toNat

/-- The per-mode RGB formula of `LayerManager._blend_images`, one colour
channel at a time, in 0–255 space (the trailing `else` is the source's
fall-through for unknown mode strings). -/
def blendChannel (mode : String) (b t : ℚ) : ℚ :=
  if mode = "normal" then t
  else if mode = "multiply" then b * t / 255
  else if mode = "screen" then 255 - (255 - b) * (255 - t) / 255
  else if mode = "overlay" then
    if b < 128 then 2 * b * t / 255 else 255 - 2 * (255 - b) * (255 - t) / 255
  else if mode = "darken" then min b t
  else if mode = "lighten" then max b t
  else if mode = "difference" then |b - t|
  else if mode = "exclusion" then b + t - 2 * b * t / 255
  else if mode = "soft_light" then 255 - (255 - b) * (255 - t / 255) / 255
  else if mode = "hard_light" then
    if t < 128 then 2 * b * t / 255 else 255 - 2 * (255 - b) * (255 - t) / 255
  else t

/-- Per-pixel body of `LayerManager._blend_images`: alpha extraction,
layer opacity applied to the top alpha, the mode formula, "over"
compositing, and the stores (`astype(np.uint8)` for RGB, `np.clip` then
`astype(np.uint8)` for alpha). -/
def blendPixel (mode : String) (opacity : ℚ) (bp tp : Pixel) : Pixel :=
  let ba : ℚ := (bp.a : ℚ) / 255
  let ta : ℚ := ((tp.a : ℚ) / 255) * opacity
  let chan : Nat → Nat → Nat := fun b t =>
    toU8 ((b : ℚ) * (1 - ta) + blendChannel mode (b : ℚ) (t : ℚ) * ta)
  ⟨chan bp.r tp.r, chan bp.g tp.g, chan bp.b tp.b,
    toU8 (clamp255 ((ba + ta * (1 - ba)) * 255))⟩

/-- `LayerManager._blend_images`: both inputs are already RGBA in the
model; when the sizes differ the top raster is resampled to the bottom's
size by the external filter `resize`; the output raster has the bottom's
dimensions. -/
def blend_images (resize : ResizeFun) (bottom top : Raster)
    (mode : String) (opacity : ℚ) : Raster :=
  let top2 :=
    if top.width = bottom.width ∧ top.height = bottom.height then top
    else resize top bottom.width bottom.height
  mkRaster bottom.width bottom.height fun x y =>
    blendPixel mode opacity (bottom.getPix x y) (top2.getPix x y)

/-- The fixed enumerated set `Layer.BLEND_MODES`. -/
def BLEND_MODES : List String :=
  ["normal", "multiply", "screen", "overlay",
   "darken", "lighten", "difference", "exclusion",
   "soft_light", "hard_light"]

/-- A layer: an owned raster plus presentation metadata.  The source also
caches a thumbnail, a derived small copy of `image` produced by the
external imaging library; no claim depends on its pixels, so it is not
carried in the model (for the zero-size rasters appearing in the claims,
namely width 0 and height at most 64, the library's `Image.thumbnail`
call is its documented early-return no-op, so layer construction does not
fault on them). -/
structure Layer where
  image : Raster
  name : String
  opacity : ℚ
  visible : Bool
  blend_mode : String
  locked : Bool
deriving DecidableEq, Repr

/-- `Layer.__init__`: the (nullable) input image is deep-copied —
`image.copy()` faults on a null image, hence the `Option` result — the
opacity is clamped into `[0, 1]`, the blend mode starts at `"normal"`. -/
def Layer.make (image : Option Raster) (name : String)
    (opacity : ℚ) (visible : Bool) : Option Layer :=
  match image with
  | none => none
  | some img =>
      some { image := img, name := name,
             opacity := max 0 (min 1 opacity),
             visible := visible, blend_mode := "normal", locked := false }

/-- `Layer.set_blend_mode`: accepted iff the mode is enumerated. -/
def Layer.set_blend_mode (l : Layer) (mode : String) : Layer :=
  if mode ∈ BLEND_MODES then { l with blend_mode := mode } else l

/-- `Layer.duplicate`: a fresh layer built through the constructor (deep
copy of the image, name suffixed, opacity re-clamped) with the blend mode
copied afterwards. -/
def Layer.duplicate (l : Layer) : Layer :=
  { image := l.image, name := l.name ++ " copy",
    opacity := max 0 (min 1 l.opacity),
    visible := l.visible, blend_mode := l.blend_mode, locked := false }

/-- Placeholder layer used to express Python's partial list indexing as a
total `getD`; every claim's hypotheses keep the indices in bounds, so the
placeholder is never read. -/
def dummyLayer : Layer :=
  { image := ⟨0, 0, []⟩, name := "", opacity := 1,
    visible := true, blend_mode := "normal", locked := false }

/-- Python's `list.insert(pos, x)`: inserts before `pos`, appending when
`pos` is at or beyond the end. -/
def pyInsert {α : Type} : Nat → α → List α → List α
  | _, x, [] => [x]
  | 0, x, l => x :: l
  | n + 1, x, a :: l => a :: pyInsert n x l

/-- The layer stack (`LayerManager`): layers bottom-to-top, the active
index (`-1` when empty, as in the source), and the cached canvas size. -/
structure LayerManager where
  layers : List Layer
  active_layer_index : Int
  width : Nat
  height : Nat
deriving DecidableEq, Repr

/-- `LayerManager.__init__`. -/
def LayerManager.empty : LayerManager := ⟨[], -1, 0, 0⟩

/-- Maximum layer-image width, as the source's running-max loop. -/
def maxWidth (ls : List Layer) : Nat :=
  ls.foldl (fun m l => max m l.image.width) 0

/-- Maximum layer-image height, as the source's running-max loop. -/
def maxHeight (ls : List Layer) : Nat :=
  ls.foldl (fun m l => max m l.image.height) 0

/-- `LayerManager._update_canvas_size`. -/
def LayerManager.update_canvas_size (s : LayerManager) : LayerManager :=
  { s with width := maxWidth s.layers, height := maxHeight s.layers }

/-- `LayerManager.add_layer`: negative or too-large position appends on
top, otherwise inserts at `position`; the new layer becomes active; the
canvas size is recomputed. -/
def LayerManager.add_layer (s : LayerManager) (layer : Layer)
    (position : Int) : LayerManager :=
  let s1 :=
    if position < 0 ∨ position ≥ (s.layers.length : Int) then
      { s with layers := s.layers ++ [layer],
               active_layer_index := (s.layers.length : Int) }
    else
      { s with layers := pyInsert position.toNat layer s.layers,
               active_layer_index := position }
  s1.update_canvas_size

/-- `LayerManager.remove_layer`: bounds-checked deletion with the
source's active-index adjustment and canvas recomputation. -/
def LayerManager.remove_layer (s : LayerManager) (index : Int) : LayerManager :=
  if 0 ≤ index ∧ index < (s.layers.length : Int) then
    let ls := s.layers.eraseIdx index.toNat
    let ai := s.active_layer_index
    let ai2 : Int :=
      if ai ≥ (ls.length : Int) then (ls.length : Int) - 1
      else if ai > index then ai - 1
      else ai
    LayerManager.update_canvas_size
      { s with layers := ls, active_layer_index := ai2 }
  else s

/-- `LayerManager.move_layer`: bounds-checked pop-and-insert; the moved
layer becomes active.  (No canvas recomputation in the source.) -/
def LayerManager.move_layer (s : LayerManager) (from_index to_index : Int) :
    LayerManager :=
  if (0 ≤ from_index ∧ from_index < (s.layers.length : Int)) ∧
     (0 ≤ to_index ∧ to_index < (s.layers.length : Int)) then
    let layer := s.layers.getD from_index.toNat dummyLayer
    { s with layers := pyInsert to_index.toNat layer
                         (s.layers.eraseIdx from_index.toNat),
             active_layer_index := to_index }
  else s

/-- `LayerManager.duplicate_layer`: bounds-checked; inserts the duplicate
just above the original through `add_layer`. -/
def LayerManager.duplicate_layer (s : LayerManager) (index : Int) : LayerManager :=
  if 0 ≤ index ∧ index < (s.layers.length : Int) then
    s.add_layer (s.layers.getD index.toNat dummyLayer).duplicate (index + 1)
  else s

/-- `LayerManager.merge_layers`: below two indices it is a no-op
returning nothing; otherwise the indices are sorted ascending, the lowest
layer's image seeds the accumulator, each remaining *visible* selected
layer is composited over it with its own mode and opacity, the selected
layers are removed highest-first through `remove_layer`, and the merged
layer (built by the `Layer` constructor with default metadata) is
inserted at the base position and made active.  (Python faults on a
selected index outside the list; the claims only exercise in-range
indices, where the total `getD` translation agrees.) -/
def LayerManager.merge_layers (resize : ResizeFun) (s : LayerManager)
    (indices : List Int) : Option Layer × LayerManager :=
  if indices.length < 2 then (none, s)
  else
    let sortedIdx := List.insertionSort (· ≤ ·) indices
    let base_index := sortedIdx.headD 0
    let base_layer := s.layers.getD base_index.toNat dummyLayer
    let result_image := sortedIdx.tail.foldl
      (fun acc idx =>
        let layer := s.layers.getD idx.toNat dummyLayer
        if layer.visible then
          blend_images resize acc layer.image layer.blend_mode layer.opacity
        else acc)
      base_layer.image
    let merged_layer : Layer :=
      { image := result_image, name := "Merged Layer",
        opacity := max 0 (min 1 1), visible := true,
        blend_mode := "normal", locked := false }
    let s1 := (List.insertionSort (fun a b => b ≤ a) sortedIdx).foldl
      (fun st idx => st.remove_layer idx) s
    let insert_pos := min base_index.toNat s1.layers.length
    let s2 := { s1 with layers := pyInsert insert_pos merged_layer s1.layers,
                        active_layer_index := (insert_pos : Int) }
    (some merged_layer, s2.update_canvas_size)

/-- Pad a raster to canvas size: a transparent `w × h` canvas with the
image pasted at the origin (`Image.new` + `paste` in `flatten`). -/
def padTo (img : Raster) (w h : Nat) : Raster :=
  mkRaster w h fun x y =>
    if x < img.width ∧ y < img.height then img.getPix x y else Pixel.transparent

/-- `LayerManager.flatten`: nothing on an empty stack; the cached canvas
size is used, recomputed from the layers when a cached dimension is zero;
still-zero dimensions give nothing; otherwise every *visible* layer,
bottom to top, is padded to canvas size and composited over a transparent
canvas with its own mode and opacity. -/
def LayerManager.flatten (resize : ResizeFun) (s : LayerManager) : Option Raster :=
  if s.layers = [] then none
  else
    let wh : Nat × Nat :=
      if s.width = 0 ∨ s.height = 0 then (maxWidth s.layers, maxHeight s.layers)
      else (s.width, s.height)
    let w := wh.1
    let h := wh.2
    if w = 0 ∨ h = 0 then none
    else
      some (s.layers.foldl
        (fun acc layer =>
          if layer.visible then
            blend_images resize acc (padTo layer.image w h)
              layer.blend_mode layer.opacity
          else acc)
        (mkRaster w h fun _ _ => Pixel.transparent))

/-- `LayerManager.get_active_layer`. -/
def LayerManager.get_active_layer (s : LayerManager) : Option Layer :=
  if 0 ≤ s.active_layer_index ∧
     s.active_layer_index < (s.layers.length : Int) then
    some (s.layers.getD s.active_layer_index.toNat dummyLayer)
  else none

/-- `LayerManager.set_active_layer`: bounds-checked. -/
def LayerManager.set_active_layer (s : LayerManager) (index : Int) : LayerManager :=
  if 0 ≤ index ∧ index < (s.layers.length : Int) then
    { s with active_layer_index := index }
  else s

/-- Contract of a resampling filter: it maps fully transparent rasters to
fully transparent rasters (true of any PIL filter, whose output channels
are convex-like combinations of input channels clamped to `[0, 255]`). -/
def PreservesTransparent (resize : ResizeFun) : Prop :=
  ∀ r w h, r.Transparent → (resize r w h).Transparent

/-- Contract of a resampling filter: its output is an 8-bit raster. -/
def Produces8Bit (resize : ResizeFun) : Prop :=
  ∀ r w h, (resize r w h).Valid8

/-- The variant of `blendPixel` demanded by the specification's words:
RGB channels are *rounded and clamped* into `[0, 255]` before the store
(the source instead truncates and does not clamp them). -/
def blendPixelSpec (mode : String) (opacity : ℚ) (bp tp : Pixel) : Pixel :=
  let ba : ℚ := (bp.a : ℚ) / 255
  let ta : ℚ := ((tp.a : ℚ) / 255) * opacity
  let chan : Nat → Nat → Nat := fun b t =>
    (round (clamp255 ((b : ℚ) * (1 - ta) + blendChannel mode (b : ℚ) (t : ℚ) * ta))).toNat
  ⟨chan bp.r tp.r, chan bp.g tp.g, chan bp.b tp.b,
    toU8 (clamp255 ((ba + ta * (1 - ba)) * 255))⟩

/-- Blend following the specification's store discipline (`blendPixelSpec`)
instead of the source's. -/
def blend_images_spec (resize : ResizeFun) (bottom top : Raster)
    (mode : String) (opacity : ℚ) : Raster :=
  let top2 :=
    if top.width = bottom.width ∧ top.height = bottom.height then top
    else resize top bottom.width bottom.height
  mkRaster bottom.width bottom.height fun x y =>
    blendPixelSpec mode opacity (bottom.getPix x y) (top2.getPix x y)

/-- The variant of `blendPixel` that also clamps the RGB channels before
truncating (the redundancy of this clamp is the amended claim C7). -/
def blendPixelClamped (mode : String) (opacity : ℚ) (bp tp : Pixel) : Pixel :=
  let ba : ℚ := (bp.a : ℚ) / 255
  let ta : ℚ := ((tp.a : ℚ) / 255) * opacity
  let chan : Nat → Nat → Nat := fun b t =>
    toU8 (clamp255 ((b : ℚ) * (1 - ta) + blendChannel mode (b : ℚ) (t : ℚ) * ta))
  ⟨chan bp.r tp.r, chan bp.g tp.g, chan bp.b tp.b,
    toU8 (clamp255 ((ba + ta * (1 - ba)) * 255))⟩

/-- Blend with the additional RGB clamp (`blendPixelClamped`). -/
def blend_images_clamped (resize : ResizeFun) (bottom top : Raster)
    (mode : String) (opacity : ℚ) : Raster :=
  let top2 :=
    if top.width = bottom.width ∧ top.height = bottom.height then top
    else resize top bottom.width bottom.height
  mkRaster bottom.width bottom.height fun x y =>
    blendPixelClamped mode opacity (bottom.getPix x y) (top2.getPix x y)

/-- A resampling filter used to instantiate witnesses: identity on the
raster (the contracts quantified by the theorems hold for it trivially
or by the small lemmas below). -/
def idResize : ResizeFun := fun r _ _ => r

/-- A resampling filter used to instantiate witnesses: constant
transparent canvas of the requested size. -/
def blankResize : ResizeFun := fun _ w h => mkRaster w h fun _ _ => Pixel.transparent

/-- Concrete 1×1 raster from one pixel, for witnesses. -/
def raster1 (p : Pixel) : Raster := ⟨1, 1, [[p]]⟩

/-- Concrete 2×2 raster filled with one pixel, for witnesses. -/
def raster2 (p : Pixel) : Raster := ⟨2, 2, [[p, p], [p, p]]⟩

/-- Concrete layer with the given raster, mode, opacity and visibility,
for witnesses. -/
def mkLayer (img : Raster) (mode : String) (opacity : ℚ) (visible : Bool) : Layer :=
  { image := img, name := "L", opacity := opacity, visible := visible,
    blend_mode := mode, locked := false }

/-- The invariant of claim C4 exactly as stated: the active index is a
valid position whenever layers exist, and each canvas dimension is zero
exactly when the stack is empty. -/
def Inv0 (s : LayerManager) : Prop :=
  (s.layers ≠ [] →
    0 ≤ s.active_layer_index ∧ s.active_layer_index < (s.layers.length : Int)) ∧
  (s.width = 0 ↔ s.layers = []) ∧ (s.height = 0 ↔ s.layers = [])

/-- Every layer raster in the list has positive width and height. -/
def AllPosL (ls : List Layer) : Prop :=
  ∀ l ∈ ls, 0 < l.image.width ∧ 0 < l.image.height

/-- The amended invariant of claim C4: the stated invariant together
with the positivity of every stacked raster, without which the stated
invariant is not preserved (PIL accepts zero-size images). -/
def InvA (s : LayerManager) : Prop := Inv0 s ∧ AllPosL s.layers

instance (s : LayerManager) : Decidable (Inv0 s) := by
  unfold Inv0; infer_instance

instance (ls : List Layer) : Decidable (AllPosL ls) := by
  unfold AllPosL; infer_instance

instance (s : LayerManager) : Decidable (InvA s) := by
  unfold InvA; infer_instance

/-- Concrete opaque 1×1 layer, for witnesses. -/
def layerA : Layer := mkLayer (raster1 ⟨5, 6, 7, 255⟩) "normal" 1 true

/-- Concrete 1×1 layer, multiply mode, for witnesses. -/
def layerB : Layer := mkLayer (raster1 ⟨100, 150, 200, 255⟩) "multiply" 1 true

/-- Concrete 1×1 layer, screen mode, for witnesses. -/
def layerC : Layer := mkLayer (raster1 ⟨1, 2, 3, 4⟩) "screen" 1 true

/-- Concrete invisible 2×2 layer, for the C2 counterexample. -/
def layerBig : Layer := mkLayer (raster2 ⟨9, 9, 9, 9⟩) "normal" 1 false

/-- Concrete invisible 1×1 layer, for the C2 witness. -/
def layerSmallHidden : Layer := mkLayer (raster1 ⟨0, 0, 0, 0⟩) "normal" 1 false

/-- Concrete visible 2×2 layer, for the C2 witness. -/
def layerBigVisible : Layer := mkLayer (raster2 ⟨3, 3, 3, 255⟩) "normal" 1 true

/-- A layer holding a zero-size raster (PIL accepts `Image.new` with a
zero dimension, and `Layer.__init__` performs no size validation), for
the C4 and C8 counterexamples. -/
def layerEmptyImg : Layer :=
  { image := ⟨0, 0, []⟩, name := "E", opacity := 1, visible := true,
    blend_mode := "normal", locked := false }

/-- Concrete one-layer manager state, for witnesses. -/
def stack1 : LayerManager := ⟨[layerA], 0, 1, 1⟩

/-- Concrete two-layer manager state, for witnesses. -/
def stack2 : LayerManager := ⟨[layerA, layerB], 1, 1, 1⟩

/-- Concrete three-layer manager state with the middle layer active, for
the C5 counterexample. -/
def stack3 : LayerManager := ⟨[layerA, layerB, layerC], 1, 1, 1⟩

/-- Concrete one-big-layer manager state, for the C2 witness. -/
def stackBig : LayerManager := ⟨[layerBigVisible], 0, 2, 2⟩

/-! ## Helper lemmas -/

theorem getD_pred {α : Type} {P : α → Prop} {d : α} :
    ∀ (l : List α) (n : Nat), (∀ a ∈ l, P a) → P d → P (l.getD n d)
  | [], n, _, hd => by simpa using hd
  | a :: l, 0, hl, _ => by simpa using hl a (by simp)
  | a :: l, n + 1, hl, hd => by
      simpa using getD_pred l n (fun b hb => hl b (by simp [hb])) hd

theorem getPix_pred {r : Raster} {P : Pixel → Prop}
    (h : ∀ row ∈ r.data, ∀ p ∈ row, P p) (hd : P Pixel.transparent) (x y : Nat) :
    P (r.getPix x y) := by
  unfold Raster.getPix
  have hrow : ∀ p ∈ r.data.getD y [], P p :=
    getD_pred (P := fun row => ∀ p ∈ row, P p) r.data y h (by simp)
  exact getD_pred _ x hrow hd

theorem getPix_valid {r : Raster} (h : r.Valid8) (x y : Nat) :
    (r.getPix x y).Valid :=
  getPix_pred h (by simp [Pixel.transparent, Pixel.Valid]) x y

theorem getPix_transparent {r : Raster} (h : r.Transparent) (x y : Nat) :
    (r.getPix x y).a = 0 :=
  getPix_pred (P := fun p => p.a = 0) h rfl x y

theorem getPix_opaque255 {r : Raster} (hwf : r.WellFormed) (h : r.Opaque255)
    (x y : Nat) (hx : x < r.width) (hy : y < r.height) :
    (r.getPix x y).a = 255 := by
  obtain ⟨hlen, hrowlen⟩ := hwf
  have hylen : y < r.data.length := by omega
  unfold Raster.getPix
  rw [List.getD_eq_getElem?_getD r.data y, List.getElem?_eq_getElem hylen,
    Option.getD_some]
  have hxlen : x < r.data[y].length := by
    rw [hrowlen _ (List.getElem_mem hylen)]
    exact hx
  rw [List.getD_eq_getElem?_getD, List.getElem?_eq_getElem hxlen, Option.getD_some]
  exact h _ (List.getElem_mem hylen) _ (List.getElem_mem hxlen)

theorem mkRaster_width (w h : Nat) (f : Nat → Nat → Pixel) :
    (mkRaster w h f).width = w := rfl

theorem mkRaster_height (w h : Nat) (f : Nat → Nat → Pixel) :
    (mkRaster w h f).height = h := rfl

theorem blend_images_width (resize : ResizeFun) (b t : Raster) (m : String) (o : ℚ) :
    (blend_images resize b t m o).width = b.width := rfl

theorem blend_images_height (resize : ResizeFun) (b t : Raster) (m : String) (o : ℚ) :
    (blend_images resize b t m o).height = b.height := rfl

theorem mkRaster_congr {w h : Nat} {f g : Nat → Nat → Pixel}
    (hfg : ∀ x y, x < w → y < h → f x y = g x y) :
    mkRaster w h f = mkRaster w h g := by
  unfold mkRaster
  refine congrArg _ ?_
  refine List.ext_getElem (by simp) ?_
  intro y hy1 hy2
  simp only [List.getElem_map, List.getElem_range, List.length_map,
    List.length_range] at hy1 ⊢
  refine List.ext_getElem (by simp) ?_
  intro x hx1 hx2
  simp only [List.getElem_map, List.getElem_range, List.length_map,
    List.length_range] at hx1 ⊢
  exact hfg x y (by simpa using hx1) (by simpa using hy1)

theorem mkRaster_getPix_eq {r : Raster} (hwf : r.WellFormed) :
    mkRaster r.width r.height r.getPix = r := by
  obtain ⟨hlen, hrow⟩ := hwf
  obtain ⟨w, h, d⟩ := r
  simp only at hlen hrow
  unfold mkRaster
  simp only [Raster.mk.injEq, true_and]
  refine List.ext_getElem (by simp [hlen]) ?_
  intro y hy1 hy2
  simp only [List.getElem_map, List.getElem_range, List.length_map,
    List.length_range] at hy1 ⊢
  refine List.ext_getElem ?_ ?_
  · simpa using (hrow _ (List.getElem_mem hy2)).symm
  · intro x hx1 hx2
    simp only [List.getElem_map, List.getElem_range, List.length_map,
      List.length_range] at hx1 ⊢
    show Raster.getPix ⟨w, h, d⟩ x y = d[y][x]
    unfold Raster.getPix
    simp only
    rw [List.getD_eq_getElem?_getD d y, List.getElem?_eq_getElem hy2]
    simp only [Option.getD_some]
    rw [List.getD_eq_getElem?_getD, List.getElem?_eq_getElem hx2]
    rfl

theorem toU8_natCast (n : Nat) : toU8 (n : ℚ) = n := by
  simp [toU8]

theorem clamp255_eq_self {q : ℚ} (h0 : 0 ≤ q) (h1 : q ≤ 255) : clamp255 q = q := by
  simp [clamp255, min_eq_right h1, max_eq_right h0]

theorem blendPixel_zero_ta (mode : String) (op : ℚ) (bp tp : Pixel)
    (ha : bp.a ≤ 255) (h : op = 0 ∨ tp.a = 0) :
    blendPixel mode op bp tp = bp := by
  have hta : ((tp.a : ℚ) / 255) * op = 0 := by
    rcases h with h | h
    · simp [h]
    · simp [h]
  obtain ⟨br, bg, bb, ba⟩ := bp
  simp only [blendPixel, hta, sub_zero, mul_one, mul_zero, add_zero, zero_mul,
    toU8_natCast, Pixel.mk.injEq]
  refine ⟨trivial, trivial, trivial, ?_⟩
  rw [div_mul_cancel₀ _ (by norm_num : (255 : ℚ) ≠ 0)]
  rw [clamp255_eq_self (by positivity) (by exact_mod_cast ha)]
  exact toU8_natCast ba

/-- Claim C1: for every bottom RGBA raster `B`, every enumerated blend
mode and a top layer of effective alpha zero (opacity argument `0`, or a
fully transparent top raster), `_blend_images` returns `B` exactly —
same pixels, same alpha, same dimensions.  The fully-transparent case
holds for every resampling filter that keeps transparent rasters
transparent. -/
theorem blend_zero_top_alpha_identity (resize : ResizeFun) (B top : Raster)
    (mode : String) (op : ℚ) (hmode : mode ∈ BLEND_MODES)
    (hwf : B.WellFormed) (hv : B.Valid8)
    (hzero : op = 0 ∨ (top.Transparent ∧ PreservesTransparent resize)) :
    blend_images resize B top mode op = B := by
  show mkRaster B.width B.height
      (fun x y => blendPixel mode op (B.getPix x y)
        ((if top.width = B.width ∧ top.height = B.height then top
          else resize top B.width B.height).getPix x y)) = B
  refine Eq.trans (mkRaster_congr fun x y _ _ => ?_) (mkRaster_getPix_eq hwf)
  refine blendPixel_zero_ta mode op _ _ (getPix_valid hv x y).2.2.2 ?_
  rcases hzero with h | ⟨ht, hp⟩
  · exact Or.inl h
  · right
    split
    · exact getPix_transparent ht x y
    · exact getPix_transparent (hp top B.width B.height ht) x y

/-- Witness for claim C1: a concrete 1×1 bottom raster, a concrete top
raster and opacity 0. -/
theorem blend_zero_top_alpha_identity_witness :
    "multiply" ∈ BLEND_MODES ∧ (raster1 ⟨10, 20, 30, 40⟩).WellFormed ∧
      (raster1 ⟨10, 20, 30, 40⟩).Valid8 ∧
      blend_images idResize (raster1 ⟨10, 20, 30, 40⟩) (raster1 ⟨7, 7, 7, 200⟩)
        "multiply" 0 = raster1 ⟨10, 20, 30, 40⟩ :=
  ⟨by decide, by decide, by decide,
    blend_zero_top_alpha_identity idResize _ _ _ _ (by decide) (by decide)
      (by decide) (Or.inl rfl)⟩

theorem blendChannel_normal (b t : ℚ) : blendChannel "normal" b t = t := by
  simp [blendChannel]

theorem blendPixel_normal_one {bp tp : Pixel} (h : tp.a = 255) :
    blendPixel "normal" 1 bp tp = tp := by
  have h1 : ((tp.a : ℚ) / 255) * 1 = 1 := by
    rw [h]; norm_num
  obtain ⟨tr, tg, tb, ta⟩ := tp
  simp only [blendPixel, h1, blendChannel_normal, sub_self, mul_zero, mul_one,
    zero_add, one_mul, toU8_natCast, Pixel.mk.injEq]
  refine ⟨trivial, trivial, trivial, ?_⟩
  simp only at h
  have h2 : ((bp.a : ℚ) / 255 + (1 - (bp.a : ℚ) / 255)) * 255 = 255 := by ring
  rw [h2, h]
  norm_num [clamp255, toU8]
  rfl

/-- Counterexample to claim C3 as stated: with a non-opaque top pixel,
normal-mode blending at opacity 1 does not return the top raster (the
bottom shows through where the top is transparent). -/
theorem blend_normal_not_replacement_cex :
    blend_images idResize (raster1 ⟨0, 0, 0, 255⟩) (raster1 ⟨255, 255, 255, 0⟩)
      "normal" 1 ≠ raster1 ⟨255, 255, 255, 0⟩ := by
  intro hEq
  have h := congrArg (fun r => (r.getPix 0 0).r) hEq
  simp only [blend_images, mkRaster, raster1, Raster.getPix, List.range_succ,
    List.range_zero, List.nil_append, List.map_cons, List.map_nil, List.getD_cons_zero,
    blendPixel, blendChannel_normal] at h
  norm_num [toU8] at h

/-- Claim C3 (amended): for a *fully opaque* top raster `T` of the same
dimensions as `B`, blending with mode `normal` and opacity 1 returns `T`
exactly; the output alpha is the stated union of the alphas, which is
255 there. -/
theorem blend_normal_full_opacity_replacement (resize : ResizeFun) (B T : Raster)
    (hw : T.width = B.width) (hh : T.height = B.height)
    (hwf : T.WellFormed) (hop : T.Opaque255) :
    blend_images resize B T "normal" 1 = T := by
  show mkRaster B.width B.height
      (fun x y => blendPixel "normal" 1 (B.getPix x y)
        ((if T.width = B.width ∧ T.height = B.height then T
          else resize T B.width B.height).getPix x y)) = T
  rw [if_pos ⟨hw, hh⟩, ← hw, ← hh]
  refine Eq.trans (mkRaster_congr fun x y hx hy => ?_) (mkRaster_getPix_eq hwf)
  exact blendPixel_normal_one (getPix_opaque255 hwf hop x y hx hy)

/-- Witness for amended claim C3 at a concrete opaque 1×1 top raster. -/
theorem blend_normal_full_opacity_replacement_witness :
    (raster1 ⟨9, 8, 7, 255⟩).width = (raster1 ⟨1, 2, 3, 4⟩).width ∧
      (raster1 ⟨9, 8, 7, 255⟩).height = (raster1 ⟨1, 2, 3, 4⟩).height ∧
      (raster1 ⟨9, 8, 7, 255⟩).WellFormed ∧ (raster1 ⟨9, 8, 7, 255⟩).Opaque255 ∧
      blend_images idResize (raster1 ⟨1, 2, 3, 4⟩) (raster1 ⟨9, 8, 7, 255⟩)
        "normal" 1 = raster1 ⟨9, 8, 7, 255⟩ :=
  ⟨rfl, rfl, by decide, by decide,
    blend_normal_full_opacity_replacement idResize _ _ rfl rfl (by decide) (by decide)⟩

theorem mkRaster_const_mem {w h : Nat} {p0 : Pixel} :
    ∀ row ∈ (mkRaster w h fun _ _ => p0).data, ∀ p ∈ row, p = p0 := by
  intro row hrow p hp
  simp only [mkRaster, List.mem_map] at hrow
  obtain ⟨y, -, rfl⟩ := hrow
  simp only [List.mem_map] at hp
  obtain ⟨x, -, rfl⟩ := hp
  rfl

theorem blankResize_produces8bit : Produces8Bit blankResize := by
  intro r w h row hrow p hp
  have := mkRaster_const_mem row hrow p hp
  simp [this, Pixel.transparent, Pixel.Valid]

theorem blankResize_preservesTransparent : PreservesTransparent blankResize := by
  intro r w h _ row hrow p hp
  have := mkRaster_const_mem row hrow p hp
  simp [this, Pixel.transparent]

set_option maxHeartbeats 1600000 in
theorem blendChannel_range (mode : String) {bn tn : Nat}
    (hb : bn ≤ 255) (ht : tn ≤ 255) :
    0 ≤ blendChannel mode (bn : ℚ) (tn : ℚ) ∧
      blendChannel mode (bn : ℚ) (tn : ℚ) ≤ 255 := by
  have hb0 : (0 : ℚ) ≤ (bn : ℚ) := Nat.cast_nonneg bn
  have ht0 : (0 : ℚ) ≤ (tn : ℚ) := Nat.cast_nonneg tn
  have hb1 : (bn : ℚ) ≤ 255 := by exact_mod_cast hb
  have ht1 : (tn : ℚ) ≤ 255 := by exact_mod_cast ht
  have hbt := mul_nonneg hb0 ht0
  have hBT := mul_nonneg (by linarith : (0 : ℚ) ≤ 255 - bn) (by linarith : (0 : ℚ) ≤ 255 - tn)
  have hbT := mul_nonneg hb0 (by linarith : (0 : ℚ) ≤ 255 - tn)
  have hBt := mul_nonneg (by linarith : (0 : ℚ) ≤ 255 - bn) ht0
  unfold blendChannel
  by_cases m1 : mode = "normal"
  · rw [if_pos m1]
    exact ⟨ht0, ht1⟩
  rw [if_neg m1]
  by_cases m2 : mode = "multiply"
  · rw [if_pos m2]
    constructor <;> nlinarith
  rw [if_neg m2]
  by_cases m3 : mode = "screen"
  · rw [if_pos m3]
    constructor <;> nlinarith
  rw [if_neg m3]
  by_cases m4 : mode = "overlay"
  · rw [if_pos m4]
    by_cases hbl : (bn : ℚ) < 128
    · rw [if_pos hbl]
      -- the bottom channel is an integer, so below 128 it is at most 127
      have hb127 : (bn : ℚ) ≤ 127 := by
        have hn : bn < 128 := by exact_mod_cast hbl
        exact_mod_cast Nat.le_of_lt_succ hn
      constructor <;> nlinarith
    · rw [if_neg hbl]
      have hb128 : (128 : ℚ) ≤ (bn : ℚ) := le_of_not_lt hbl
      constructor <;> nlinarith
  rw [if_neg m4]
  by_cases m5 : mode = "darken"
  · rw [if_pos m5]
    exact ⟨le_min hb0 ht0, le_trans (min_le_left _ _) hb1⟩
  rw [if_neg m5]
  by_cases m6 : mode = "lighten"
  · rw [if_pos m6]
    exact ⟨le_trans hb0 (le_max_left _ _), max_le hb1 ht1⟩
  rw [if_neg m6]
  by_cases m7 : mode = "difference"
  · rw [if_pos m7]
    exact ⟨abs_nonneg _, abs_le.2 ⟨by linarith, by linarith⟩⟩
  rw [if_neg m7]
  by_cases m8 : mode = "exclusion"
  · rw [if_pos m8]
    constructor <;> nlinarith
  rw [if_neg m8]
  by_cases m9 : mode = "soft_light"
  · rw [if_pos m9]
    have htd0 : (0 : ℚ) ≤ (tn : ℚ) / 255 := by positivity
    have htd1 : (tn : ℚ) / 255 ≤ 1 := by
      rw [div_le_one (by norm_num : (0 : ℚ) < 255)]
      exact ht1
    have k1 := mul_nonneg (by linarith : (0 : ℚ) ≤ 255 - bn)
      (by linarith : (0 : ℚ) ≤ 255 - (tn : ℚ) / 255)
    have k2 := mul_le_mul (by linarith : (255 : ℚ) - bn ≤ 255)
      (by linarith : (255 : ℚ) - (tn : ℚ) / 255 ≤ 255)
      (by linarith : (0 : ℚ) ≤ 255 - (tn : ℚ) / 255)
      (by norm_num : (0 : ℚ) ≤ 255)
    constructor <;> nlinarith
  rw [if_neg m9]
  by_cases m10 : mode = "hard_light"
  · rw [if_pos m10]
    by_cases htl : (tn : ℚ) < 128
    · rw [if_pos htl]
      have ht127 : (tn : ℚ) ≤ 127 := by
        have hn : tn < 128 := by exact_mod_cast htl
        exact_mod_cast Nat.le_of_lt_succ hn
      constructor <;> nlinarith
    · rw [if_neg htl]
      have ht128 : (128 : ℚ) ≤ (tn : ℚ) := le_of_not_lt htl
      constructor <;> nlinarith
  rw [if_neg m10]
  exact ⟨ht0, ht1⟩

theorem blendPixel_eq_clamped (mode : String) {op : ℚ} (h0 : 0 ≤ op) (h1 : op ≤ 1)
    {bp tp : Pixel} (hbv : bp.Valid) (htv : tp.Valid) :
    blendPixel mode op bp tp = blendPixelClamped mode op bp tp := by
  obtain ⟨hbr, hbg, hbb, hba⟩ := hbv
  obtain ⟨htr, htg, htb, hta⟩ := htv
  have hta0 : (0 : ℚ) ≤ (tp.a : ℚ) / 255 * op := by positivity
  have hta1 : (tp.a : ℚ) / 255 * op ≤ 1 := by
    have h255 : (tp.a : ℚ) / 255 ≤ 1 := by
      rw [div_le_one (by norm_num : (0 : ℚ) < 255)]
      exact_mod_cast hta
    have := mul_le_mul h255 h1 h0 zero_le_one
    simpa using this
  have chan_eq : ∀ b t : Nat, b ≤ 255 → t ≤ 255 →
      toU8 ((b : ℚ) * (1 - (tp.a : ℚ) / 255 * op) +
          blendChannel mode (b : ℚ) (t : ℚ) * ((tp.a : ℚ) / 255 * op)) =
        toU8 (clamp255 ((b : ℚ) * (1 - (tp.a : ℚ) / 255 * op) +
          blendChannel mode (b : ℚ) (t : ℚ) * ((tp.a : ℚ) / 255 * op))) := by
    intro b t hb ht
    obtain ⟨hc0, hc255⟩ := blendChannel_range mode hb ht
    have hb0 : (0 : ℚ) ≤ (b : ℚ) := Nat.cast_nonneg b
    have hb255 : (b : ℚ) ≤ 255 := by exact_mod_cast hb
    have hv0 : (0 : ℚ) ≤ (b : ℚ) * (1 - (tp.a : ℚ) / 255 * op) +
        blendChannel mode (b : ℚ) (t : ℚ) * ((tp.a : ℚ) / 255 * op) := by
      have t1 := mul_nonneg hb0 (by linarith : (0 : ℚ) ≤ 1 - (tp.a : ℚ) / 255 * op)
      have t2 := mul_nonneg hc0 hta0
      linarith
    have hv255 : (b : ℚ) * (1 - (tp.a : ℚ) / 255 * op) +
        blendChannel mode (b : ℚ) (t : ℚ) * ((tp.a : ℚ) / 255 * op) ≤ 255 := by
      have t1 := mul_nonneg (by linarith : (0 : ℚ) ≤ 255 - (b : ℚ))
        (by linarith : (0 : ℚ) ≤ 1 - (tp.a : ℚ) / 255 * op)
      have t2 := mul_nonneg (by linarith : (0 : ℚ) ≤ 255 - blendChannel mode (b : ℚ) (t : ℚ))
        hta0
      nlinarith
    rw [clamp255_eq_self hv0 hv255]
  simp only [blendPixel, blendPixelClamped, Pixel.mk.injEq]
  exact ⟨chan_eq bp.r tp.r hbr htr, chan_eq bp.g tp.g hbg htg,
    chan_eq bp.b tp.b hbb htb, trivial⟩

/-- Claim C7 (amended): every output channel is computed with exact
division by 255 in float space and stored *truncated* to an 8-bit
integer — not rounded; for the RGB channels the source omits the clamp,
which is redundant because the composited values already lie in
`[0, 255]`: the blend equals the variant that additionally clamps the
RGB channels.  The alpha channel is clamped then truncated, as in the
source. -/
theorem blend_images_store_discipline (resize : ResizeFun) (bottom top : Raster)
    (mode : String) (op : ℚ) (h0 : 0 ≤ op) (h1 : op ≤ 1)
    (hbv : bottom.Valid8) (htv : top.Valid8) (hres : Produces8Bit resize) :
    blend_images resize bottom top mode op =
      blend_images_clamped resize bottom top mode op := by
  show mkRaster bottom.width bottom.height
      (fun x y => blendPixel mode op (bottom.getPix x y)
        ((if top.width = bottom.width ∧ top.height = bottom.height then top
          else resize top bottom.width bottom.height).getPix x y)) =
    mkRaster bottom.width bottom.height
      (fun x y => blendPixelClamped mode op (bottom.getPix x y)
        ((if top.width = bottom.width ∧ top.height = bottom.height then top
          else resize top bottom.width bottom.height).getPix x y))
  refine mkRaster_congr fun x y _ _ => ?_
  refine blendPixel_eq_clamped mode h0 h1 (getPix_valid hbv x y) ?_
  split
  · exact getPix_valid htv x y
  · exact getPix_valid (hres top bottom.width bottom.height) x y

/-- Counterexample to claim C7 as stated: the source *truncates* the RGB
store instead of rounding it.  Blending bottom channel 1 with top
channel 128 in multiply mode at full alpha gives 128/255 ≈ 0.502, stored
as 0 by the source, while the claimed rounded-and-clamped store gives 1. -/
theorem blend_store_not_rounded_cex :
    blend_images idResize (raster1 ⟨1, 1, 1, 255⟩) (raster1 ⟨128, 128, 128, 255⟩)
      "multiply" 1 ≠
    blend_images_spec idResize (raster1 ⟨1, 1, 1, 255⟩) (raster1 ⟨128, 128, 128, 255⟩)
      "multiply" 1 := by
  intro hEq
  have h := congrArg (fun r => (r.getPix 0 0).r) hEq
  simp only [blend_images, blend_images_spec, mkRaster, raster1, Raster.getPix,
    List.range_succ, List.range_zero, List.nil_append, List.map_cons, List.map_nil,
    List.getD_cons_zero, blendPixel, blendPixelSpec] at h
  simp only [blendChannel, if_neg (by decide : ¬("multiply" = "normal")),
    if_pos (rfl : "multiply" = "multiply")] at h
  norm_num [toU8, clamp255, round_eq, min_def, max_def] at h

/-- Witness for amended claim C7 at concrete rasters of different sizes
(so the resampling filter is exercised). -/
theorem blend_images_store_discipline_witness :
    (0 : ℚ) ≤ 1 ∧ (1 : ℚ) ≤ 1 ∧ (raster1 ⟨5, 6, 7, 8⟩).Valid8 ∧
      (raster2 ⟨250, 1, 2, 3⟩).Valid8 ∧ Produces8Bit blankResize ∧
      blend_images blankResize (raster1 ⟨5, 6, 7, 8⟩) (raster2 ⟨250, 1, 2, 3⟩)
        "screen" 1 =
      blend_images_clamped blankResize (raster1 ⟨5, 6, 7, 8⟩) (raster2 ⟨250, 1, 2, 3⟩)
        "screen" 1 :=
  ⟨by norm_num, le_refl 1, by decide, by decide, blankResize_produces8bit,
    blend_images_store_discipline blankResize _ _ _ _ (by norm_num) (le_refl 1)
      (by decide) (by decide) blankResize_produces8bit⟩

/-! ## List helper lemmas for the layer stack -/

theorem length_pyInsert {α : Type} : ∀ (n : Nat) (x : α) (l : List α),
    (pyInsert n x l).length = l.length + 1
  | n, _, [] => by cases n <;> rfl
  | 0, _, _ :: _ => rfl
  | n + 1, x, a :: l => by
      show (a :: pyInsert n x l).length = _
      simp [length_pyInsert n x l]

theorem mem_pyInsert {α : Type} {b x : α} :
    ∀ {n : Nat} {l : List α}, b ∈ pyInsert n x l → b = x ∨ b ∈ l := by
  intro n l
  induction l generalizing n with
  | nil =>
      intro h
      cases n <;> simpa [pyInsert] using h
  | cons a l ih =>
      intro h
      cases n with
      | zero =>
          rcases (by simpa [pyInsert] using h : b = x ∨ b = a ∨ b ∈ l) with h1 | h1 | h1
          · exact Or.inl h1
          · exact Or.inr (by simp [h1])
          · exact Or.inr (by simp [h1])
      | succ n =>
          rcases (by simpa [pyInsert] using h : b = a ∨ b ∈ pyInsert n x l) with h1 | h1
          · exact Or.inr (by simp [h1])
          · rcases ih h1 with h2 | h2
            · exact Or.inl h2
            · exact Or.inr (by simp [h2])

theorem getD_pyInsert_self {α : Type} {d : α} :
    ∀ {n : Nat} {l : List α} (x : α), n ≤ l.length →
      (pyInsert n x l).getD n d = x := by
  intro n l
  induction l generalizing n with
  | nil =>
      intro x hn
      cases n with
      | zero => rfl
      | succ n => exact absurd hn (by simp)
  | cons a l ih =>
      intro x hn
      cases n with
      | zero => rfl
      | succ n => simpa [pyInsert] using ih x (by simpa using hn)

theorem pyInsert_length_eq_append {α : Type} (x : α) :
    ∀ l : List α, pyInsert l.length x l = l ++ [x]
  | [] => rfl
  | a :: l => by simp [pyInsert, pyInsert_length_eq_append x l]

theorem getD_mem {α : Type} {l : List α} {n : Nat} (d : α) (h : n < l.length) :
    l.getD n d ∈ l := by
  rw [List.getD_eq_getElem?_getD, List.getElem?_eq_getElem h, Option.getD_some]
  exact List.getElem_mem h

theorem foldl_max_acc {α : Type} (g : α → Nat) :
    ∀ (l : List α) (a : Nat),
      l.foldl (fun m x => max m (g x)) a = max a (l.foldl (fun m x => max m (g x)) 0)
  | [], a => by simp
  | x :: l, a => by
      rw [List.foldl_cons, List.foldl_cons, foldl_max_acc g l (max a (g x)),
        foldl_max_acc g l (max 0 (g x))]
      omega

theorem maxWidth_cons (l : Layer) (ls : List Layer) :
    maxWidth (l :: ls) = max l.image.width (maxWidth ls) := by
  unfold maxWidth
  rw [List.foldl_cons, foldl_max_acc]
  omega

theorem maxHeight_cons (l : Layer) (ls : List Layer) :
    maxHeight (l :: ls) = max l.image.height (maxHeight ls) := by
  unfold maxHeight
  rw [List.foldl_cons, foldl_max_acc]
  omega

theorem maxWidth_pyInsert (x : Layer) :
    ∀ (n : Nat) (ls : List Layer),
      maxWidth (pyInsert n x ls) = max x.image.width (maxWidth ls)
  | _, [] => by simp [pyInsert, maxWidth_cons, maxWidth]
  | 0, a :: ls => by simp [pyInsert, maxWidth_cons]
  | n + 1, a :: ls => by
      show maxWidth (a :: pyInsert n x ls) = _
      rw [maxWidth_cons, maxWidth_pyInsert x n ls, maxWidth_cons]
      omega

theorem maxHeight_pyInsert (x : Layer) :
    ∀ (n : Nat) (ls : List Layer),
      maxHeight (pyInsert n x ls) = max x.image.height (maxHeight ls)
  | _, [] => by simp [pyInsert, maxHeight_cons, maxHeight]
  | 0, a :: ls => by simp [pyInsert, maxHeight_cons]
  | n + 1, a :: ls => by
      show maxHeight (a :: pyInsert n x ls) = _
      rw [maxHeight_cons, maxHeight_pyInsert x n ls, maxHeight_cons]
      omega

theorem maxWidth_append_one (ls : List Layer) (x : Layer) :
    maxWidth (ls ++ [x]) = max x.image.width (maxWidth ls) := by
  rw [← pyInsert_length_eq_append, maxWidth_pyInsert]

theorem maxHeight_append_one (ls : List Layer) (x : Layer) :
    maxHeight (ls ++ [x]) = max x.image.height (maxHeight ls) := by
  rw [← pyInsert_length_eq_append, maxHeight_pyInsert]

theorem maxWidth_eq_zero_iff {ls : List Layer} (h : AllPosL ls) :
    (maxWidth ls = 0 ↔ ls = []) := by
  induction ls with
  | nil => simp [maxWidth]
  | cons a ls ih =>
      rw [maxWidth_cons]
      have ha := (h a (by simp)).1
      constructor
      · intro hz
        omega
      · intro hz
        exact absurd hz (by simp)

theorem maxHeight_eq_zero_iff {ls : List Layer} (h : AllPosL ls) :
    (maxHeight ls = 0 ↔ ls = []) := by
  induction ls with
  | nil => simp [maxHeight]
  | cons a ls ih =>
      rw [maxHeight_cons]
      have ha := (h a (by simp)).2
      constructor
      · intro hz
        omega
      · intro hz
        exact absurd hz (by simp)

theorem foldl_pyInsert_skip {α β : Type} {f : β → α → β} {x : α}
    (hx : ∀ b, f b x = b) :
    ∀ (l : List α) (n : Nat) (b : β),
      (pyInsert n x l).foldl f b = l.foldl f b
  | [], n, b => by cases n <;> simp [pyInsert, hx]
  | a :: l, 0, b => by simp [pyInsert, hx]
  | a :: l, n + 1, b => by
      show (a :: pyInsert n x l).foldl f b = _
      rw [List.foldl_cons, List.foldl_cons]
      exact foldl_pyInsert_skip hx l n (f b a)

/-! ## Claims C8, C6, C5 -/

/-- Claim C8 (amended): `Layer` construction fails exactly on a null
raster (the deep copy faults on it); any non-null raster — including a
zero-size one, which the source never checks for — is accepted: the
layer holds a copy of the raster value, the given name and visibility,
the opacity clamped into `[0, 1]`, and blend mode `"normal"`. -/
theorem layer_make_spec (name : String) (op : ℚ) (vis : Bool) :
    Layer.make none name op vis = none ∧
    ∀ r : Raster, ∃ L : Layer, Layer.make (some r) name op vis = some L ∧
      L.image = r ∧ L.name = name ∧ L.visible = vis ∧
      L.opacity = max 0 (min 1 op) ∧ 0 ≤ L.opacity ∧ L.opacity ≤ 1 ∧
      L.blend_mode = "normal" := by
  refine ⟨rfl, fun r => ⟨_, rfl, rfl, rfl, rfl, rfl, le_max_left 0 _, ?_, rfl⟩⟩
  exact max_le (by norm_num) (min_le_left 1 op)

/-- Counterexample to claim C8 as stated: the source performs no size
validation, so a zero-size (0×0) raster is accepted and produces a
layer rather than failing. -/
theorem layer_make_accepts_empty_cex :
    (Layer.make (some ⟨0, 0, []⟩) "Layer" 1 true).isSome = true := rfl

/-- Claim C6: an out-of-range index makes `remove_layer`, `move_layer`
(in either argument position), `duplicate_layer` and `set_active_layer`
no-ops: the whole manager state — layers, active index and canvas — is
returned unchanged, and the (total) operations raise nothing. -/
theorem out_of_range_index_noop (s : LayerManager) (i j : Int)
    (hi : ¬(0 ≤ i ∧ i < (s.layers.length : Int))) :
    s.remove_layer i = s ∧ s.move_layer i j = s ∧ s.move_layer j i = s ∧
      s.duplicate_layer i = s ∧ s.set_active_layer i = s := by
  refine ⟨?_, ?_, ?_, ?_, ?_⟩
  · unfold LayerManager.remove_layer
    rw [if_neg hi]
  · unfold LayerManager.move_layer
    rw [if_neg (fun h => hi h.1)]
  · unfold LayerManager.move_layer
    rw [if_neg (fun h => hi h.2)]
  · unfold LayerManager.duplicate_layer
    rw [if_neg hi]
  · unfold LayerManager.set_active_layer
    rw [if_neg hi]

/-- Witness for claim C6: index 5 on a two-layer stack. -/
theorem out_of_range_index_noop_witness :
    ¬((0 : Int) ≤ 5 ∧ (5 : Int) < (stack2.layers.length : Int)) ∧
      (stack2.remove_layer 5 = stack2 ∧ stack2.move_layer 5 0 = stack2 ∧
        stack2.move_layer 0 5 = stack2 ∧ stack2.duplicate_layer 5 = stack2 ∧
        stack2.set_active_layer 5 = stack2) :=
  ⟨by decide, out_of_range_index_noop stack2 5 0 (by decide)⟩

/-- Claim C5 (amended): for a valid index `i` (on a state whose active
index is valid), `remove_layer i` deletes slot `i` and recomputes the
canvas from the remaining layers; the active index is decremented when
it pointed strictly after slot `i`, or when it pointed at slot `i` and
`i` was the topmost slot (the clamp to the shrunken list); when it
pointed at slot `i` with slots above, it is left unchanged, now denoting
the layer that sat directly above the removed one. -/
theorem remove_layer_spec (s : LayerManager) (i : Int)
    (hi : 0 ≤ i ∧ i < (s.layers.length : Int))
    (hai : 0 ≤ s.active_layer_index ∧
      s.active_layer_index < (s.layers.length : Int)) :
    (s.remove_layer i).layers = s.layers.eraseIdx i.toNat ∧
    (s.remove_layer i).width = maxWidth (s.remove_layer i).layers ∧
    (s.remove_layer i).height = maxHeight (s.remove_layer i).layers ∧
    (s.active_layer_index > i →
      (s.remove_layer i).active_layer_index = s.active_layer_index - 1) ∧
    (s.active_layer_index = i → i = (s.layers.length : Int) - 1 →
      (s.remove_layer i).active_layer_index = s.active_layer_index - 1) ∧
    (s.active_layer_index = i → i < (s.layers.length : Int) - 1 →
      (s.remove_layer i).active_layer_index = s.active_layer_index) ∧
    (s.active_layer_index < i →
      (s.remove_layer i).active_layer_index = s.active_layer_index) := by
  have hlen : (s.layers.eraseIdx i.toNat).length = s.layers.length - 1 := by
    rw [List.length_eraseIdx]
    simp only [if_pos (by omega : i.toNat < s.layers.length)]
  unfold LayerManager.remove_layer
  rw [if_pos hi]
  unfold LayerManager.update_canvas_size
  simp only
  refine ⟨trivial, trivial, trivial, ?_, ?_, ?_, ?_⟩
  · intro hgt
    rw [hlen]
    split <;> omega
  · intro heq hlast
    rw [hlen]
    split <;> omega
  · intro heq hlt
    rw [hlen]
    split <;> omega
  · intro hlt
    rw [hlen]
    split <;> omega

/-- Witness for amended claim C5: removing the bottom layer of a
two-layer stack whose top layer is active decrements the active index. -/
theorem remove_layer_spec_witness :
    ((0 : Int) ≤ 0 ∧ (0 : Int) < (stack2.layers.length : Int)) ∧
      ((0 : Int) ≤ stack2.active_layer_index ∧
        stack2.active_layer_index < (stack2.layers.length : Int)) ∧
      ((stack2.remove_layer 0).layers = stack2.layers.eraseIdx 0 ∧
        (stack2.remove_layer 0).active_layer_index =
          stack2.active_layer_index - 1) :=
  ⟨by decide, by decide,
    (remove_layer_spec stack2 0 (by decide) (by decide)).1,
    (remove_layer_spec stack2 0 (by decide) (by decide)).2.2.2.1 (by decide)⟩

theorem pyInsert_ne_nil {α : Type} (n : Nat) (x : α) (l : List α) :
    pyInsert n x l ≠ [] := by
  intro h
  have := length_pyInsert n x l
  rw [h] at this
  simp at this

/-- The layers, width and height produced by `add_layer`, expressed
through `pyInsert` uniformly over both branches. -/
theorem add_layer_shape (s : LayerManager) (L : Layer) (p : Int) :
    ∃ n : Nat, n ≤ s.layers.length ∧
      (s.add_layer L p).layers = pyInsert n L s.layers ∧
      (s.add_layer L p).width = maxWidth (pyInsert n L s.layers) ∧
      (s.add_layer L p).height = maxHeight (pyInsert n L s.layers) ∧
      (s.add_layer L p).active_layer_index =
        (if p < 0 ∨ p ≥ (s.layers.length : Int) then (s.layers.length : Int) else p) := by
  unfold LayerManager.add_layer
  split
  · refine ⟨s.layers.length, le_refl _, ?_⟩
    simp [LayerManager.update_canvas_size, pyInsert_length_eq_append]
  · rename_i hp
    refine ⟨p.toNat, by omega, ?_⟩
    simp [LayerManager.update_canvas_size]

/-- Claim C2 (amended): inserting an *invisible* layer at any position
never changes `flatten()` — provided the layer's dimensions do not
exceed the stack's canvas (the source computes the canvas over *all*
layers, visible or not, so a larger invisible layer grows the output
canvas).  The state is assumed canvas-consistent, as every reachable
state is. -/
theorem invisible_layer_inert (resize : ResizeFun) (s : LayerManager)
    (L : Layer) (p : Int)
    (hcw : s.width = maxWidth s.layers) (hch : s.height = maxHeight s.layers)
    (hv : L.visible = false)
    (hw : L.image.width ≤ maxWidth s.layers)
    (hh : L.image.height ≤ maxHeight s.layers) :
    (s.add_layer L p).flatten resize = s.flatten resize := by
  obtain ⟨n, -, hl, hwid, hhei, -⟩ := add_layer_shape s L p
  have hmw : maxWidth (pyInsert n L s.layers) = maxWidth s.layers := by
    rw [maxWidth_pyInsert]
    omega
  have hmh : maxHeight (pyInsert n L s.layers) = maxHeight s.layers := by
    rw [maxHeight_pyInsert]
    omega
  unfold LayerManager.flatten
  rw [hl, hwid, hhei, hmw, hmh, hcw, hch]
  rw [if_neg (pyInsert_ne_nil n L s.layers)]
  simp only [ite_self]
  by_cases hnil : s.layers = []
  · rw [if_pos hnil, hnil]
    exact if_pos (Or.inl rfl)
  · rw [if_neg hnil]
    by_cases hz : maxWidth s.layers = 0 ∨ maxHeight s.layers = 0
    · rw [if_pos hz, if_pos hz]
    · rw [if_neg hz, if_neg hz]
      refine congrArg some ?_
      refine foldl_pyInsert_skip (fun b => ?_) s.layers n _
      rw [hv]
      simp

/-- Witness for amended claim C2: a hidden 1×1 layer added on top of a
2×2 stack does not change the flattened output. -/
theorem invisible_layer_inert_witness :
    stackBig.width = maxWidth stackBig.layers ∧
      stackBig.height = maxHeight stackBig.layers ∧
      layerSmallHidden.visible = false ∧
      layerSmallHidden.image.width ≤ maxWidth stackBig.layers ∧
      layerSmallHidden.image.height ≤ maxHeight stackBig.layers ∧
      (stackBig.add_layer layerSmallHidden (-1)).flatten idResize =
        stackBig.flatten idResize :=
  ⟨by decide, by decide, by decide, by decide, by decide,
    invisible_layer_inert idResize stackBig layerSmallHidden (-1) (by decide)
      (by decide) (by decide) (by decide) (by decide)⟩

/-- Counterexample to claim C2 as stated: adding an *invisible* 2×2
layer to a one-layer 1×1 stack changes `flatten()`'s output — the canvas
is computed over all layers including invisible ones, so the output
grows to 2×2. -/
theorem invisible_layer_not_inert_cex :
    (stack1.add_layer layerBig (-1)).flatten idResize ≠
      stack1.flatten idResize := by
  intro hEq
  have h := congrArg (fun o => Option.map Raster.width o) hEq
  simp only [LayerManager.flatten, LayerManager.add_layer,
    LayerManager.update_canvas_size] at h
  norm_num [stack1, layerBig, layerA, mkLayer, raster1, raster2, maxWidth,
    maxHeight] at h
  obtain ⟨a, ⟨-, hba⟩, hwa⟩ := h
  rw [← hba] at hwa
  simp [blend_images_width, mkRaster_width] at hwa

theorem remove_layer_length_of_valid {s : LayerManager} {i : Int}
    (h : 0 ≤ i ∧ i < (s.layers.length : Int)) :
    (s.remove_layer i).layers.length = s.layers.length - 1 := by
  unfold LayerManager.remove_layer
  rw [if_pos h]
  unfold LayerManager.update_canvas_size
  simp only
  rw [List.length_eraseIdx]
  rw [if_pos (by omega : i.toNat < s.layers.length)]

theorem insert_update_layers_length (s1 : LayerManager) (m : Layer)
    (pos : Nat) (ai : Int) :
    (LayerManager.update_canvas_size
      { s1 with layers := pyInsert pos m s1.layers,
                active_layer_index := ai }).layers.length =
      s1.layers.length + 1 := by
  unfold LayerManager.update_canvas_size
  simp only
  exact length_pyInsert pos m s1.layers

theorem insert_update_get_active (s1 : LayerManager) (m : Layer) (b : Nat) :
    (LayerManager.update_canvas_size
      { s1 with layers := pyInsert (min b s1.layers.length) m s1.layers,
                active_layer_index := ((min b s1.layers.length : Nat) : Int) }
      ).get_active_layer = some m := by
  unfold LayerManager.update_canvas_size LayerManager.get_active_layer
  simp only
  have hlen := length_pyInsert (min b s1.layers.length) m s1.layers
  have hle : min b s1.layers.length ≤ s1.layers.length := min_le_right _ _
  rw [if_pos ⟨Int.natCast_nonneg _, by rw [hlen]; push_cast; omega⟩]
  rw [Int.toNat_natCast]
  rw [getD_pyInsert_self m hle]

/-- Claim C9: `merge_layers` with fewer than two indices leaves the
state strictly unchanged and returns no merged layer; with exactly two
distinct in-range indices it shrinks the layer count by exactly one
(two removed, one inserted). -/
theorem merge_layers_count (resize : ResizeFun) (s : LayerManager) :
    (∀ idxs : List Int, idxs.length < 2 →
      s.merge_layers resize idxs = (none, s)) ∧
    (∀ i j : Int, 0 ≤ i → i < (s.layers.length : Int) → 0 ≤ j →
      j < (s.layers.length : Int) → i ≠ j →
      (s.merge_layers resize [i, j]).2.layers.length + 1 = s.layers.length) := by
  constructor
  · intro idxs h
    unfold LayerManager.merge_layers
    rw [if_pos h]
  · intro i j hi0 hin hj0 hjn hne
    unfold LayerManager.merge_layers
    rw [if_neg (by simp : ¬(([i, j] : List Int).length < 2))]
    simp only
    by_cases hij : i ≤ j
    · have hlt : i < j := lt_of_le_of_ne hij hne
      have hasc : List.insertionSort (· ≤ ·) [i, j] = [i, j] := by
        simp [List.insertionSort, List.orderedInsert, hij]
      have hdesc : List.insertionSort (fun a b => b ≤ a) [i, j] = [j, i] := by
        simp only [List.insertionSort, List.orderedInsert]
        rw [if_neg (by omega : ¬(j ≤ i))]
      rw [hasc, hdesc]
      simp only [List.foldl_cons, List.foldl_nil, List.headD_cons]
      rw [insert_update_layers_length]
      have h1 : (s.remove_layer j).layers.length = s.layers.length - 1 :=
        remove_layer_length_of_valid ⟨hj0, hjn⟩
      have h2 : ((s.remove_layer j).remove_layer i).layers.length =
          (s.remove_layer j).layers.length - 1 := by
        refine remove_layer_length_of_valid ⟨hi0, ?_⟩
        rw [h1]
        push_cast
        omega
      omega
    · have hlt : j < i := by omega
      have hasc : List.insertionSort (· ≤ ·) [i, j] = [j, i] := by
        simp [List.insertionSort, List.orderedInsert, hij]
      have hdesc : List.insertionSort (fun a b => b ≤ a) [j, i] = [i, j] := by
        simp only [List.insertionSort, List.orderedInsert]
        rw [if_neg (by omega : ¬(i ≤ j))]
      rw [hasc, hdesc]
      simp only [List.foldl_cons, List.foldl_nil, List.headD_cons]
      rw [insert_update_layers_length]
      have h1 : (s.remove_layer i).layers.length = s.layers.length - 1 :=
        remove_layer_length_of_valid ⟨hi0, hin⟩
      have h2 : ((s.remove_layer i).remove_layer j).layers.length =
          (s.remove_layer i).layers.length - 1 := by
        refine remove_layer_length_of_valid ⟨hj0, ?_⟩
        rw [h1]
        push_cast
        omega
      omega

/-- Witness for claim C9: a singleton merge set is a no-op on a concrete
two-layer stack, and merging its two layers leaves one layer. -/
theorem merge_layers_count_witness :
    (([0] : List Int).length < 2 ∧
      stack2.merge_layers idResize [0] = (none, stack2)) ∧
    ((0 : Int) ≤ 0 ∧ (0 : Int) < (stack2.layers.length : Int) ∧
      (0 : Int) ≤ 1 ∧ (1 : Int) < (stack2.layers.length : Int) ∧ (0 : Int) ≠ 1 ∧
      (stack2.merge_layers idResize [0, 1]).2.layers.length + 1 =
        stack2.layers.length) :=
  ⟨⟨by decide, (merge_layers_count idResize stack2).1 [0] (by decide)⟩,
    by decide, by decide, by decide, by decide, by decide,
    (merge_layers_count idResize stack2).2 0 1 (by decide) (by decide)
      (by decide) (by decide) (by decide)⟩

/-- Claim C10: a successful merge (at least two distinct valid indices)
returns a merged layer whose presentation metadata is reset to the
constructor defaults — name "Merged Layer", opacity 1, visible, blend
mode "normal", unlocked — and that layer becomes the active layer of
the resulting stack. -/
theorem merge_layers_resets_metadata (resize : ResizeFun) (s : LayerManager)
    (idxs : List Int) (h2 : 2 ≤ idxs.length)
    (hval : ∀ i ∈ idxs, 0 ≤ i ∧ i < (s.layers.length : Int))
    (hdist : idxs.Pairwise (· ≠ ·)) :
    ∃ m : Layer, (s.merge_layers resize idxs).1 = some m ∧
      m.name = "Merged Layer" ∧ m.opacity = 1 ∧ m.visible = true ∧
      m.blend_mode = "normal" ∧ m.locked = false ∧
      (s.merge_layers resize idxs).2.get_active_layer = some m := by
  unfold LayerManager.merge_layers
  rw [if_neg (by omega)]
  refine ⟨_, rfl, rfl, by norm_num, rfl, rfl, rfl, ?_⟩
  exact insert_update_get_active _ _ _

/-- Witness for claim C10 on a concrete two-layer stack. -/
theorem merge_layers_resets_metadata_witness :
    2 ≤ ([0, 1] : List Int).length ∧
      (∀ i ∈ ([0, 1] : List Int), 0 ≤ i ∧ i < (stack2.layers.length : Int)) ∧
      ([0, 1] : List Int).Pairwise (· ≠ ·) ∧
      ∃ m : Layer, (stack2.merge_layers idResize [0, 1]).1 = some m ∧
        m.name = "Merged Layer" ∧ m.opacity = 1 ∧ m.visible = true ∧
        m.blend_mode = "normal" ∧ m.locked = false ∧
        (stack2.merge_layers idResize [0, 1]).2.get_active_layer = some m :=
  ⟨by decide, by decide, by decide,
    merge_layers_resets_metadata idResize stack2 [0, 1] (by decide) (by decide)
      (by decide)⟩

theorem add_layer_invA {s : LayerManager} (hs : InvA s) {L : Layer}
    (hLw : 0 < L.image.width) (hLh : 0 < L.image.height) (p : Int) :
    InvA (s.add_layer L p) := by
  obtain ⟨⟨hact, hwz, hhz⟩, hpos⟩ := hs
  obtain ⟨n, hn, hl, hwid, hhei, hai⟩ := add_layer_shape s L p
  have hpos2 : AllPosL (s.add_layer L p).layers := by
    rw [hl]
    intro l hlmem
    rcases mem_pyInsert hlmem with h | h
    · rw [h]
      exact ⟨hLw, hLh⟩
    · exact hpos l h
  have hne : (s.add_layer L p).layers ≠ [] := by
    rw [hl]
    exact pyInsert_ne_nil n L s.layers
  refine ⟨⟨fun _ => ?_, ?_, ?_⟩, hpos2⟩
  · rw [hai, hl, length_pyInsert]
    split
    · constructor <;> [positivity; push_cast] <;> omega
    · rename_i hp
      push_cast
      omega
  · rw [hwid, hl]
    exact maxWidth_eq_zero_iff (hl ▸ hpos2)
  · rw [hhei, hl]
    exact maxHeight_eq_zero_iff (hl ▸ hpos2)

theorem remove_layer_invA {s : LayerManager} (hs : InvA s) (i : Int) :
    InvA (s.remove_layer i) := by
  obtain ⟨⟨hact, hwz, hhz⟩, hpos⟩ := hs
  unfold LayerManager.remove_layer
  split
  · rename_i h
    have hne : s.layers ≠ [] := by
      intro hnil
      rw [hnil] at h
      simp at h
      omega
    obtain ⟨hai0, hain⟩ := hact hne
    unfold LayerManager.update_canvas_size
    simp only
    have hsub : AllPosL (s.layers.eraseIdx i.toNat) := fun l hl =>
      hpos l (List.eraseIdx_subset _ _ hl)
    have hlen : (s.layers.eraseIdx i.toNat).length = s.layers.length - 1 := by
      rw [List.length_eraseIdx, if_pos (by omega : i.toNat < s.layers.length)]
    refine ⟨⟨fun hne2 => ?_, maxWidth_eq_zero_iff hsub, maxHeight_eq_zero_iff hsub⟩,
      hsub⟩
    have hlp : 0 < (s.layers.eraseIdx i.toNat).length := List.length_pos.2 hne2
    split <;> (try constructor) <;> (try split) <;> push_cast <;> omega
  · exact ⟨⟨hact, hwz, hhz⟩, hpos⟩

theorem move_layer_invA {s : LayerManager} (hs : InvA s) (i j : Int) :
    InvA (s.move_layer i j) := by
  obtain ⟨⟨hact, hwz, hhz⟩, hpos⟩ := hs
  unfold LayerManager.move_layer
  split
  · rename_i h
    obtain ⟨⟨hi0, hin⟩, hj0, hjn⟩ := h
    simp only
    have hne : s.layers ≠ [] := by
      intro hnil
      rw [hnil] at hin
      simp at hin
      omega
    have hlen : (pyInsert j.toNat (s.layers.getD i.toNat dummyLayer)
        (s.layers.eraseIdx i.toNat)).length = s.layers.length := by
      rw [length_pyInsert, List.length_eraseIdx,
        if_pos (by omega : i.toNat < s.layers.length)]
      omega
    have hne2 : pyInsert j.toNat (s.layers.getD i.toNat dummyLayer)
        (s.layers.eraseIdx i.toNat) ≠ [] := pyInsert_ne_nil _ _ _
    refine ⟨⟨fun _ => ⟨hj0, by rw [hlen]; exact hjn⟩, ?_, ?_⟩, ?_⟩
    · exact ⟨fun hw0 => absurd (hwz.mp hw0) hne, fun h0 => absurd h0 hne2⟩
    · exact ⟨fun hh0 => absurd (hhz.mp hh0) hne, fun h0 => absurd h0 hne2⟩
    · intro l hl
      rcases mem_pyInsert hl with h | h
      · rw [h]
        exact hpos _ (getD_mem dummyLayer (by omega))
      · exact hpos l (List.eraseIdx_subset _ _ h)
  · exact ⟨⟨hact, hwz, hhz⟩, hpos⟩

theorem duplicate_layer_invA {s : LayerManager} (hs : InvA s) (i : Int) :
    InvA (s.duplicate_layer i) := by
  unfold LayerManager.duplicate_layer
  split
  · rename_i h
    have hmem : s.layers.getD i.toNat dummyLayer ∈ s.layers :=
      getD_mem dummyLayer (by omega)
    have hp := hs.2 _ hmem
    have hp1 : 0 < (s.layers.getD i.toNat dummyLayer).duplicate.image.width := hp.1
    have hp2 : 0 < (s.layers.getD i.toNat dummyLayer).duplicate.image.height := hp.2
    exact add_layer_invA hs hp1 hp2 _
  · exact hs

theorem set_active_layer_invA {s : LayerManager} (hs : InvA s) (i : Int) :
    InvA (s.set_active_layer i) := by
  obtain ⟨⟨hact, hwz, hhz⟩, hpos⟩ := hs
  unfold LayerManager.set_active_layer
  split
  · rename_i h
    exact ⟨⟨fun _ => h, hwz, hhz⟩, hpos⟩
  · exact ⟨⟨hact, hwz, hhz⟩, hpos⟩

theorem foldl_remove_invA : ∀ (L : List Int) (s : LayerManager), InvA s →
    InvA (L.foldl (fun st k => st.remove_layer k) s)
  | [], _, h => h
  | k :: L, s, h => foldl_remove_invA L _ (remove_layer_invA h k)

/-- The compositing loop of `merge_layers` keeps the accumulator's
width: each blend output has the bottom raster's dimensions. -/
theorem mergeImage_width (resize : ResizeFun) (s : LayerManager) :
    ∀ (L : List Int) (acc : Raster),
      (L.foldl (fun acc idx =>
        let layer := s.layers.getD idx.toNat dummyLayer
        if layer.visible then
          blend_images resize acc layer.image layer.blend_mode layer.opacity
        else acc) acc).width = acc.width
  | [], _ => rfl
  | k :: L, acc => by
      rw [List.foldl_cons, mergeImage_width resize s L _]
      dsimp only
      split
      · rfl
      · rfl

/-- Same for the height. -/
theorem mergeImage_height (resize : ResizeFun) (s : LayerManager) :
    ∀ (L : List Int) (acc : Raster),
      (L.foldl (fun acc idx =>
        let layer := s.layers.getD idx.toNat dummyLayer
        if layer.visible then
          blend_images resize acc layer.image layer.blend_mode layer.opacity
        else acc) acc).height = acc.height
  | [], _ => rfl
  | k :: L, acc => by
      rw [List.foldl_cons, mergeImage_height resize s L _]
      dsimp only
      split
      · rfl
      · rfl

theorem insert_update_invA (s1 : LayerManager) (m : Layer) (b : Nat)
    (hs1 : AllPosL s1.layers) (hmw : 0 < m.image.width)
    (hmh : 0 < m.image.height) :
    InvA (LayerManager.update_canvas_size
      { s1 with layers := pyInsert (min b s1.layers.length) m s1.layers,
                active_layer_index := ((min b s1.layers.length : Nat) : Int) }) := by
  unfold LayerManager.update_canvas_size
  simp only
  have hpos2 : AllPosL (pyInsert (min b s1.layers.length) m s1.layers) := by
    intro l hl
    rcases mem_pyInsert hl with h | h
    · rw [h]
      exact ⟨hmw, hmh⟩
    · exact hs1 l h
  have hlen := length_pyInsert (min b s1.layers.length) m s1.layers
  refine ⟨⟨fun _ => ⟨Int.natCast_nonneg _, by rw [hlen]; push_cast; omega⟩,
    maxWidth_eq_zero_iff hpos2, maxHeight_eq_zero_iff hpos2⟩, hpos2⟩

theorem headD_insertionSort_mem {idxs : List Int} (hne : idxs ≠ []) :
    (List.insertionSort (· ≤ ·) idxs).headD 0 ∈ idxs := by
  have hnn : List.insertionSort (· ≤ ·) idxs ≠ [] := by
    intro hnl
    have hl := List.length_insertionSort (· ≤ ·) idxs
    rw [hnl] at hl
    exact hne (List.length_eq_zero.mp hl.symm)
  cases hsrt : List.insertionSort (· ≤ ·) idxs with
  | nil => exact absurd hsrt hnn
  | cons a t =>
      have ha : a ∈ List.insertionSort (· ≤ ·) idxs := by
        rw [hsrt]
        simp
      simpa using (List.perm_insertionSort (· ≤ ·) idxs).mem_iff.mp ha

theorem merge_layers_invA (resize : ResizeFun) {s : LayerManager} (hs : InvA s)
    (idxs : List Int)
    (hval : ∀ k ∈ idxs, 0 ≤ k ∧ k < (s.layers.length : Int)) :
    InvA (s.merge_layers resize idxs).2 := by
  unfold LayerManager.merge_layers
  split
  · exact hs
  · rename_i hlen2
    simp only
    have hbase : (List.insertionSort (· ≤ ·) idxs).headD 0 ∈ idxs :=
      headD_insertionSort_mem (by intro hnil; rw [hnil] at hlen2; simp at hlen2)
    obtain ⟨hb0, hbn⟩ := hval _ hbase
    refine insert_update_invA _ _ _ (foldl_remove_invA _ s hs).2 ?_ ?_
    · rw [mergeImage_width resize s]
      exact (hs.2 _ (getD_mem dummyLayer (by omega))).1
    · rw [mergeImage_height resize s]
      exact (hs.2 _ (getD_mem dummyLayer (by omega))).2

/-- Claim C4 (amended): on states whose layer rasters are all non-empty
(positive width and height) — a condition the claim needs because the
source accepts zero-size rasters, which break the canvas-zero-iff-empty
half — the stated invariant, strengthened with that positivity, is
preserved by every stack operation: `add_layer` (of a non-empty-raster
layer, any position), `remove_layer`, `move_layer`, `duplicate_layer`,
`merge_layers` (distinct valid indices) and `set_active_layer`. -/
theorem stack_invariant_preserved (resize : ResizeFun) (s : LayerManager)
    (hs : InvA s) :
    (∀ (L : Layer) (p : Int), 0 < L.image.width → 0 < L.image.height →
      InvA (s.add_layer L p)) ∧
    (∀ i : Int, InvA (s.remove_layer i)) ∧
    (∀ i j : Int, InvA (s.move_layer i j)) ∧
    (∀ i : Int, InvA (s.duplicate_layer i)) ∧
    (∀ idxs : List Int, (∀ k ∈ idxs, 0 ≤ k ∧ k < (s.layers.length : Int)) →
      idxs.Pairwise (· ≠ ·) → InvA (s.merge_layers resize idxs).2) ∧
    (∀ i : Int, InvA (s.set_active_layer i)) :=
  ⟨fun L p hw hh => add_layer_invA hs hw hh p,
   fun i => remove_layer_invA hs i,
   fun i j => move_layer_invA hs i j,
   fun i => duplicate_layer_invA hs i,
   fun idxs hval _ => merge_layers_invA resize hs idxs hval,
   fun i => set_active_layer_invA hs i⟩

/-- Witness for amended claim C4 on a concrete two-layer stack. -/
theorem stack_invariant_preserved_witness :
    InvA stack2 ∧ InvA (stack2.add_layer layerA 0) ∧
      InvA (stack2.remove_layer 0) ∧ InvA (stack2.move_layer 0 1) ∧
      InvA (stack2.duplicate_layer 0) ∧
      InvA (stack2.merge_layers idResize [0, 1]).2 ∧
      InvA (stack2.set_active_layer 0) :=
  ⟨by decide,
    (stack_invariant_preserved idResize stack2 (by decide)).1 layerA 0
      (by decide) (by decide),
    (stack_invariant_preserved idResize stack2 (by decide)).2.1 0,
    (stack_invariant_preserved idResize stack2 (by decide)).2.2.1 0 1,
    (stack_invariant_preserved idResize stack2 (by decide)).2.2.2.1 0,
    (stack_invariant_preserved idResize stack2 (by decide)).2.2.2.2.1 [0, 1]
      (by decide) (by decide),
    (stack_invariant_preserved idResize stack2 (by decide)).2.2.2.2.2 0⟩

/-- Counterexample to claim C4 as stated: the empty manager satisfies
the stated invariant, and `add_layer` with a layer holding a zero-size
raster (which `Layer.__init__` accepts) produces a non-empty stack whose
canvas is zero — the invariant's canvas half is violated. -/
theorem stack_invariant_not_preserved_cex :
    Inv0 LayerManager.empty ∧
      ¬Inv0 (LayerManager.empty.add_layer layerEmptyImg (-1)) := by
  constructor <;> decide

/-- Counterexample to claim C5 as stated: on a three-layer stack with
the middle layer (index 1) active, `remove_layer 1` leaves the active
index at 1 — it is *not* decremented to 0, although it pointed at the
removed slot and 0 is a valid index of the two remaining layers. -/
theorem remove_layer_active_not_decremented_cex :
    (stack3.remove_layer 1).active_layer_index = 1 ∧
      ¬((stack3.remove_layer 1).active_layer_index =
        stack3.active_layer_index - 1) := by
  constructor <;> decide


